import Mathlib

set_option maxRecDepth 8192

/-!
# Verification of the identity-management credential subsystem

Shallow embedding of the security-relevant modules of the repository:

* `Encryption` — AES-256-CBC field encryption (`src/utils/encryption.js`,
  two variants present in the repository: one with a module-level key
  check, one with the lazy `getEncryptionKey` and whitespace-aware empty
  check exercised by the test suite).
* `Jwt` — token issuance/verification wrappers (`src/server/src/utils/jwt.js`)
  over the `jsonwebtoken` library, whose check order
  (signature, then nbf, then exp, then audience, then issuer) is embedded.
* `Bcrypt` — password hashing wrappers (`src/server/src/utils/passwordHash.js`).

Strings are embedded as `List Char`; byte buffers as `List Nat` with the
invariant that every byte is `< 256` carried as hypotheses.  Library
cryptographic primitives (the AES block permutation, the HMAC signature,
the bcrypt digest function) are parameters of the definitions; the glue
logic (IV handling, base64, colon framing, PKCS#7 padding, CBC chaining,
input validation, error classification) is embedded from the source.
-/

namespace JsString

/-- The whitespace set of JavaScript `String.prototype.trim`:
WhiteSpace and LineTerminator code points. -/
def jsIsWhitespace (c : Char) : Bool :=
  let n := c.toNat
  decide ((9 ≤ n ∧ n ≤ 13) ∨ n = 32 ∨ n = 160 ∨ n = 0x1680 ∨
    (0x2000 ≤ n ∧ n ≤ 0x200A) ∨ n = 0x2028 ∨ n = 0x2029 ∨
    n = 0x202F ∨ n = 0x205F ∨ n = 0x3000 ∨ n = 0xFEFF)

/-- JavaScript `s.trim()`: strip leading and trailing whitespace. -/
def jsTrim (s : List Char) : List Char :=
  ((s.dropWhile jsIsWhitespace).reverse.dropWhile jsIsWhitespace).reverse

/-- JavaScript `s.toLowerCase()` restricted to the ASCII case mapping
(the repository lowercases email addresses; the embedding applies the
same per-character mapping on both sides of every statement). -/
def jsToLower (s : List Char) : List Char :=
  s.map Char.toLower

end JsString

namespace B64

/-- Value-to-character table of standard base64 (`A-Z a-z 0-9 + /`). -/
def b64EncChar (n : Nat) : Char :=
  if n < 26 then Char.ofNat (65 + n)
  else if n < 52 then Char.ofNat (97 + (n - 26))
  else if n < 62 then Char.ofNat (48 + (n - 52))
  else if n = 62 then '+'
  else '/'

/-- Character-to-value table of standard base64; `none` for every
character outside the alphabet (including `=` and `:`). -/
def b64DecChar (c : Char) : Option Nat :=
  let n := c.toNat
  if 65 ≤ n ∧ n ≤ 90 then some (n - 65)
  else if 97 ≤ n ∧ n ≤ 122 then some (26 + (n - 97))
  else if 48 ≤ n ∧ n ≤ 57 then some (52 + (n - 48))
  else if c = '+' then some 62
  else if c = '/' then some 63
  else none

/-- Bytes to 6-bit groups, three bytes at a time, exactly as base64
packs them (final group of 1 byte yields 2 sextets, of 2 bytes 3). -/
def toSextets : List Nat → List Nat
  | [] => []
  | [a] => [a / 4, a % 4 * 16]
  | [a, b] => [a / 4, a % 4 * 16 + b / 16, b % 16 * 4]
  | a :: b :: c :: rest =>
      (a / 4) :: (a % 4 * 16 + b / 16) :: (b % 16 * 4 + c / 64) :: (c % 64) :: toSextets rest

/-- 6-bit groups back to bytes; an incomplete trailing byte is dropped,
matching Node's lenient base64 decoder. -/
def fromSextets : List Nat → List Nat
  | s1 :: s2 :: s3 :: s4 :: rest =>
      (s1 * 4 + s2 / 16) :: (s2 % 16 * 16 + s3 / 4) :: (s3 % 4 * 64 + s4) :: fromSextets rest
  | [s1, s2] => [s1 * 4 + s2 / 16]
  | [s1, s2, s3] => [s1 * 4 + s2 / 16, s2 % 16 * 16 + s3 / 4]
  | _ => []

/-- Number of `=` padding characters of canonical base64. -/
def b64PadLen (n : Nat) : Nat := (3 - n % 3) % 3

/-- `Buffer.toString('base64')`: canonical padded base64. -/
def b64Encode (bs : List Nat) : List Char :=
  (toSextets bs).map b64EncChar ++ List.replicate (b64PadLen bs.length) '='

/-- `Buffer.from(s, 'base64')`: Node's decoder never fails — characters
outside the alphabet (and `=`) are simply ignored and the surviving
sextet stream is packed back into bytes. -/
def b64DecodeLenient (cs : List Char) : List Nat :=
  fromSextets (cs.filterMap b64DecChar)

/-- Strict, canonical base64 validity: length a multiple of 4, alphabet
characters followed only by at most two `=` padding characters. -/
def b64Valid (cs : List Char) : Bool :=
  let core := cs.takeWhile (fun c => c ≠ '=')
  decide (cs.length % 4 = 0) &&
  core.all (fun c => (b64DecChar c).isSome) &&
  (cs.drop core.length).all (fun c => c = '=') &&
  decide (cs.length - core.length ≤ 2)

end B64

namespace Utf8

/-- UTF-8 encoding of a single scalar value (Lean `Char`s are exactly
the Unicode scalar values, so every char has a 1–4 byte encoding). -/
def utf8EncodeChar (c : Char) : List Nat :=
  let n := c.toNat
  if n < 0x80 then [n]
  else if n < 0x800 then [0xC0 + n / 64, 0x80 + n % 64]
  else if n < 0x10000 then [0xE0 + n / 4096, 0x80 + n / 64 % 64, 0x80 + n % 64]
  else [0xF0 + n / 262144, 0x80 + n / 4096 % 64, 0x80 + n / 64 % 64, 0x80 + n % 64]

/-- `Buffer.from(s, 'utf8')`: the UTF-8 byte sequence of a string. -/
def utf8Encode (s : List Char) : List Nat :=
  (s.map utf8EncodeChar).flatten

/-- Is `b` a UTF-8 continuation byte (`10xxxxxx`)? -/
def isCont (b : Nat) : Bool :=
  decide (0x80 ≤ b ∧ b < 0xC0)

/-- Strict UTF-8 decoding: rejects overlong forms, surrogates, and
out-of-range scalars.  (Node's `toString('utf8')` instead substitutes
U+FFFD for invalid sequences; the two agree on all valid encodings,
which are the only ones the verified statements exercise.) -/
def utf8Decode : (bs : List Nat) → Option (List Char)
  | [] => some []
  | b :: rest =>
    if b < 0x80 then
      (utf8Decode rest).map (fun s => Char.ofNat b :: s)
    else if b < 0xC0 then none
    else
      match rest with
      | [] => none
      | b2 :: rest2 =>
        if b < 0xE0 then
          if isCont b2 then
            let n := (b - 0xC0) * 64 + (b2 - 0x80)
            if 0x80 ≤ n then (utf8Decode rest2).map (fun s => Char.ofNat n :: s)
            else none
          else none
        else
          match rest2 with
          | [] => none
          | b3 :: rest3 =>
            if b < 0xF0 then
              if isCont b2 && isCont b3 then
                let n := (b - 0xE0) * 4096 + (b2 - 0x80) * 64 + (b3 - 0x80)
                if 0x800 ≤ n ∧ ¬(0xD800 ≤ n ∧ n ≤ 0xDFFF) then
                  (utf8Decode rest3).map (fun s => Char.ofNat n :: s)
                else none
              else none
            else
              match rest3 with
              | [] => none
              | b4 :: rest4 =>
                if b < 0xF8 then
                  if isCont b2 && isCont b3 && isCont b4 then
                    let n := (b - 0xF0) * 262144 + (b2 - 0x80) * 4096 +
                      (b3 - 0x80) * 64 + (b4 - 0x80)
                    if 0x10000 ≤ n ∧ n < 0x110000 then
                      (utf8Decode rest4).map (fun s => Char.ofNat n :: s)
                    else none
                  else none
                else none
termination_by structural bs => bs

end Utf8

namespace Cbc

/-- Auxiliary for `chunks16`, structurally recursive on a fuel bound
(the fuel is always at least the list length, so the middle arm is
never reached). -/
def chunks16Aux : Nat → List Nat → List (List Nat)
  | _, [] => []
  | 0, _ :: _ => []
  | fuel + 1, b :: rest => (b :: rest).take 16 :: chunks16Aux fuel (rest.drop 15)

/-- Split a byte string into 16-byte blocks (the final block may be
shorter when the length is not a multiple of 16). -/
def chunks16 (bs : List Nat) : List (List Nat) :=
  chunks16Aux bs.length bs

/-- Pointwise XOR of two equal-length byte strings. -/
def xorBytes (xs ys : List Nat) : List Nat :=
  List.zipWith (fun a b => a ^^^ b) xs ys

/-- CBC encryption of a block sequence: each plaintext block is XORed
with the previous ciphertext block (initially the IV) before the block
cipher `E` is applied. -/
def cbcEnc (E : List Nat → List Nat) (prev : List Nat) : List (List Nat) → List (List Nat)
  | [] => []
  | b :: rest =>
    let c := E (xorBytes prev b)
    c :: cbcEnc E c rest

/-- CBC decryption of a block sequence with block-cipher inverse `D`. -/
def cbcDec (D : List Nat → List Nat) (prev : List Nat) : List (List Nat) → List (List Nat)
  | [] => []
  | c :: rest => xorBytes prev (D c) :: cbcDec D c rest

/-- PKCS#7 padding to a multiple of 16 bytes: `p` bytes of value `p`
with `1 ≤ p ≤ 16` are appended. -/
def pkcs7Pad (bs : List Nat) : List Nat :=
  let p := 16 - bs.length % 16
  bs ++ List.replicate p p

/-- PKCS#7 unpadding as OpenSSL validates it: the final byte `p` must
satisfy `1 ≤ p ≤ 16`, not exceed the length, and the last `p` bytes
must all equal `p`; otherwise the whole operation fails. -/
def pkcs7Unpad (bs : List Nat) : Option (List Nat) :=
  match bs.getLast? with
  | none => none
  | some p =>
    if 1 ≤ p ∧ p ≤ 16 ∧ p ≤ bs.length ∧ (bs.drop (bs.length - p)).all (fun x => x = p)
    then some (bs.take (bs.length - p))
    else none

end Cbc

namespace Encryption

open JsString B64 Utf8 Cbc

/-- JavaScript `s.split(':')`. -/
def splitOnColon (s : List Char) : List (List Char) :=
  match s with
  | [] => [[]]
  | c :: rest =>
    if c = ':' then [] :: splitOnColon rest
    else
      match splitOnColon rest with
      | [] => [[c]]
      | p :: ps => (c :: p) :: ps

/-- Error kinds of the encryption module.  The source throws plain
`Error`s with distinct messages; the spec's taxonomy maps `emptyInput`
and `invalidFormat` to `InvalidInputError`, `missingKey` and
`badKeyLength` to `ConfigurationError`, and the remaining kinds
(raised inside the library cipher calls and re-wrapped as
`Decryption failed: ...`) to `DecryptionError`. -/
inductive EncError where
  | emptyInput
  | missingKey
  | badKeyLength
  | invalidFormat
  | invalidIv
  | badCiphertext
  | badPadding
  | invalidUtf8
deriving DecidableEq, Repr

/-- `getEncryptionKey` of the lazily-validating module
(`src/utils/encryption.js`, the variant exercised by the test suite):
reads `AES_SECRET_KEY`, fails if absent or of length other than 32,
and otherwise returns the key string unchanged. -/
def getEncryptionKey (envKey : Option (List Char)) : Except EncError (List Char) :=
  match envKey with
  | none => .error .missingKey
  | some k => if k.length ≠ 32 then .error .badKeyLength else .ok k

/-- The module-level `AES_SECRET_KEY` validation of the other variant
of the encryption module — a dead duplicate that no live `require`
resolves to — executed when that module is loaded: absent key or
length other than 32 aborts, otherwise `ENCRYPTION_KEY` is the
environment value unchanged. -/
def initEncryptionModule (envKey : Option (List Char)) : Except EncError (List Char) :=
  match envKey with
  | none => .error .missingKey
  | some k => if k.length ≠ 32 then .error .badKeyLength else .ok k

/-- Loading the live (lazily-validating) encryption module: its module
body only defines `ALGORITHM`, `getEncryptionKey`, `encrypt` and
`decrypt` and throws nothing — in particular it performs no key check,
whatever `AES_SECRET_KEY` holds ("Validates lazily (when needed) to
allow test setup to configure it first", per its own comment). -/
def lazyModuleInit (_envKey : Option (List Char)) : Except EncError Unit :=
  .ok ()

/-- `encrypt` (lazy-validation variant): rejects empty or
whitespace-only input, validates the key, then AES-256-CBC-encrypts the
UTF-8 bytes of `text` under the random IV `iv` and returns
`base64(iv) ++ ":" ++ base64(ciphertext)`.  The AES-256 block
permutation keyed by the key string's bytes is the parameter
`blockEnc`; the IV, produced by `crypto.randomBytes(16)` in the source,
is a parameter. -/
def encrypt (blockEnc : List Char → List Nat → List Nat)
    (envKey : Option (List Char)) (iv : List Nat) (text : List Char) :
    Except EncError (List Char) :=
  if text = [] ∨ (jsTrim text).length = 0 then .error .emptyInput
  else
    match getEncryptionKey envKey with
    | .error e => .error e
    | .ok key =>
      let padded := pkcs7Pad (utf8Encode text)
      let ct := (cbcEnc (blockEnc key) iv (chunks16 padded)).flatten
      .ok (b64Encode iv ++ ':' :: b64Encode ct)

/-- `encrypt` of the module-level-validation variant: identical except
that the empty-input check is JavaScript's `!text` alone (empty
string), so whitespace-only strings are encrypted. -/
def encryptEager (blockEnc : List Char → List Nat → List Nat)
    (envKey : Option (List Char)) (iv : List Nat) (text : List Char) :
    Except EncError (List Char) :=
  if text = [] then .error .emptyInput
  else
    match initEncryptionModule envKey with
    | .error e => .error e
    | .ok key =>
      let padded := pkcs7Pad (utf8Encode text)
      let ct := (cbcEnc (blockEnc key) iv (chunks16 padded)).flatten
      .ok (b64Encode iv ++ ':' :: b64Encode ct)

/-- `decrypt` (lazy-validation variant): rejects empty tokens,
validates the key, splits on `:` requiring exactly two parts, leniently
base64-decodes IV and ciphertext, and runs AES-256-CBC decryption.
`createDecipheriv` rejects IVs that are not 16 bytes; the cipher
rejects ciphertexts whose length is zero or not a multiple of the
block size, and invalid PKCS#7 padding. -/
def decrypt (blockDec : List Char → List Nat → List Nat)
    (envKey : Option (List Char)) (token : List Char) :
    Except EncError (List Char) :=
  if token = [] then .error .emptyInput
  else
    match getEncryptionKey envKey with
    | .error e => .error e
    | .ok key =>
      match splitOnColon token with
      | [ivB64, ctB64] =>
        let iv := b64DecodeLenient ivB64
        if iv.length ≠ 16 then .error .invalidIv
        else
          let ct := b64DecodeLenient ctB64
          if ct.length = 0 ∨ ct.length % 16 ≠ 0 then .error .badCiphertext
          else
            let padded := (cbcDec (blockDec key) iv (chunks16 ct)).flatten
            match pkcs7Unpad padded with
            | none => .error .badPadding
            | some bs =>
              match utf8Decode bs with
              | none => .error .invalidUtf8
              | some s => .ok s
      | _ => .error .invalidFormat

end Encryption

namespace Jwt

open JsString

/-- The claims payload carried by a signed token.  `generateToken`
fills `userId`, `email`, `iat`, `exp`, `iss`, `aud` and never sets
`nbf`; foreign tokens submitted to `verifyToken` may carry one. -/
structure Payload where
  userId : List Char
  email : List Char
  iat : Nat
  exp : Nat
  nbf : Option Nat
  iss : List Char
  aud : List Char
deriving DecidableEq, Repr

/-- A structurally well-formed signed token: a payload together with
its signature value.  The HMAC-SHA256 computation of the `jsonwebtoken`
library is the parameter `sigOf : Payload → secret → Nat` of the
operations below. -/
structure SignedToken where
  payload : Payload
  sig : Nat
deriving DecidableEq, Repr

/-- What `verifyToken` receives: the empty string, a non-empty string
that does not parse as a three-part JWS structure, or a parsed token. -/
inductive TokenInput where
  | empty
  | malformed
  | parsed (t : SignedToken)
deriving DecidableEq, Repr

/-- The wrapper's error classification (`src/server/src/utils/jwt.js`
lines 62–73): `TokenExpiredError` → "Token has expired. Please login
again.", `JsonWebTokenError` → "Invalid token. Please login again.",
`NotBeforeError` → "Token not active yet.", anything else → "Token
verification failed: ...". -/
inductive JwtError where
  | expired
  | invalidToken
  | notActive
  | otherFailure
deriving DecidableEq, Repr

def issuerStr : List Char := "identity-management-service".toList

def audienceStr : List Char := "identity-management-client".toList

/-- `generateToken(userId, email)`: rejects empty arguments, then signs
`{userId, email: email.toLowerCase().trim()}` with issue time `now`,
expiry `now + expSec` (`JWT_EXPIRES_IN`, default 7 days = 604800 s),
and the fixed issuer and audience. -/
def generateToken (sigOf : Payload → List Char → Nat) (secret : List Char)
    (expSec : Nat) (now : Nat) (userId email : List Char) :
    Except JwtError SignedToken :=
  if userId = [] ∨ email = [] then .error .otherFailure
  else
    let p : Payload :=
      { userId := userId
        email := jsTrim (jsToLower email)
        iat := now
        exp := now + expSec
        nbf := none
        iss := issuerStr
        aud := audienceStr }
    .ok { payload := p, sig := sigOf p secret }

/-- `verifyToken(token)`: empty tokens raise the wrapper's own "Token
is required" (re-wrapped as a generic verification failure);
`jwt.verify` then checks, in the library's order: structure, signature,
`nbf` (NotBeforeError when `now < nbf`), `exp` (TokenExpiredError when
`now ≥ exp`), audience, issuer (JsonWebTokenError on mismatch). -/
def verifyToken (sigOf : Payload → List Char → Nat) (secret : List Char)
    (now : Nat) : TokenInput → Except JwtError Payload
  | .empty => .error .otherFailure
  | .malformed => .error .invalidToken
  | .parsed t =>
    if t.sig ≠ sigOf t.payload secret then .error .invalidToken
    else
      let nbfFuture :=
        match t.payload.nbf with
        | some n => decide (now < n)
        | none => false
      if nbfFuture then .error .notActive
      else if now ≥ t.payload.exp then .error .expired
      else if t.payload.aud ≠ audienceStr then .error .invalidToken
      else if t.payload.iss ≠ issuerStr then .error .invalidToken
      else .ok t.payload

/-- `decodeToken(token)`: throws "Token is required" on an empty
token; otherwise calls `jwt.decode`, embedded as the parameter
`jwtDecode`.  The library call normally returns the structurally
decoded payload or `null`, but it can itself throw — `jws.decode`
runs an unguarded `JSON.parse` on the payload of a token whose header
is `typ: JWT` — so the parameter is `Except`-valued (the error value,
an opaque library exception, is `Unit`); the wrapper's `catch`
rethrows any such exception as "Token decoding failed: ...". -/
def decodeToken (jwtDecode : List Char → Except Unit (Option Payload))
    (token : List Char) : Except JwtError (Option Payload) :=
  if token = [] then .error .otherFailure
  else
    match jwtDecode token with
    | .ok p => .ok p
    | .error _ => .error .otherFailure

end Jwt

namespace Bcrypt

/-- A bcrypt digest string, parsed: the cost factor and random salt are
embedded in the digest, followed by the MAC of the password under
them.  The bcrypt key-derivation function of the library is the
parameter `mac : cost → salt → password → Nat` of the operations. -/
structure Digest where
  cost : Nat
  salt : Nat
  mac : Nat
deriving DecidableEq, Repr

inductive HashError where
  | emptyInput
deriving DecidableEq, Repr

/-- `hashPassword(password)`: rejects empty passwords, then returns the
bcrypt digest of the password under `SALT_ROUNDS` and a fresh random
salt (a parameter here, like the IV of the cipher). -/
def hashPassword (mac : Nat → Nat → List Char → Nat) (saltRounds : Nat)
    (salt : Nat) (password : List Char) : Except HashError Digest :=
  if password = [] then .error .emptyInput
  else .ok { cost := saltRounds, salt := salt, mac := mac saltRounds salt password }

/-- `comparePassword(password, hashedPassword)`: rejects empty
arguments, then re-derives the MAC of `password` under the cost and
salt embedded in the digest and compares.  (The digest argument, a
string in the source, is embedded parsed; a parsed digest is never the
empty string, so only the password emptiness check remains.) -/
def comparePassword (mac : Nat → Nat → List Char → Nat) (password : List Char)
    (digest : Digest) : Except HashError Bool :=
  if password = [] then .error .emptyInput
  else .ok (decide (mac digest.cost digest.salt password = digest.mac))

end Bcrypt

namespace Fixtures

/-- A concrete involutive 16-byte block permutation standing in for the
keyed AES-256 block cipher in concrete evaluations (the statements
about the modules are parametric in the block cipher; witnesses and
counterexamples instantiate it). -/
def toyBlock : List Char → List Nat → List Nat :=
  fun _ b => b.map (fun x => 255 - x)

/-- A concrete 32-character key, the one the repository's test setup
installs in `AES_SECRET_KEY`. -/
def key32 : List Char := "0123456789abcdef0123456789abcdef".toList

/-- A concrete 16-byte IV. -/
def iv0 : List Nat := List.range 16

/-- A second, distinct 16-byte IV. -/
def ivOne : List Nat := List.replicate 16 1

/-- The example Aadhaar plaintext of the spec's end-to-end scenario. -/
def aadhaar : List Char := "123456789012".toList

/-- A concrete signature function standing in for HMAC-SHA256 in
concrete evaluations. -/
def toySig : Jwt.Payload → List Char → Nat := fun _ s => s.length

/-- A concrete bcrypt key-derivation function for concrete
evaluations. -/
def toyMac : Nat → Nat → List Char → Nat := fun _ _ p => p.length

/-- A concrete total decoder standing in for `jwt.decode`. -/
def toyDecode : List Char → Except Unit (Option Jwt.Payload) := fun _ => .ok none

/-- A stand-in for `jwt.decode`'s behavior on a token whose header is
`typ: JWT` and whose payload part is not valid JSON: the unguarded
`JSON.parse` inside `jws.decode` throws. -/
def throwingDecode : List Char → Except Unit (Option Jwt.Payload) := fun _ => .error ()

/-- A concrete such token: header `eyJ0eXAiOiJKV1QifQ` decodes to the
JSON text of a `typ: JWT` header, while the payload part `bm90anNvbg`
decodes to `notjson`, which `JSON.parse` rejects. -/
def badPayloadToken : List Char := "eyJ0eXAiOiJKV1QifQ.bm90anNvbg.x".toList

/-- A 5-character key, shorter than the required 32. -/
def keyShort : List Char := "short".toList

/-- The token produced by encrypting `aadhaar` under `toyBlock`,
`key32` and `iv0`, with a `!` inserted at the start of its ciphertext
part — the ciphertext part is thereby not valid base64, yet Node's
lenient decoder ignores the stray character. -/
def mangledToken : List Char :=
  "AAECAwQFBgcICQoLDA0ODw==:!zszOyM7MzsDOxsTG9/b19A==".toList

/-- A concrete signing secret. -/
def secretA : List Char := "test-secret-a".toList

/-- A different concrete signing secret (of different length, so the
concrete signature function distinguishes the two). -/
def secretB : List Char := "a-different-test-secret".toList

/-- An expired payload: well-formed issuer/audience, `exp` in the past
relative to the evaluation time 100. -/
def payloadExpired : Jwt.Payload :=
  { userId := "u1".toList
    email := "u1@example.com".toList
    iat := 0
    exp := 50
    nbf := none
    iss := Jwt.issuerStr
    aud := Jwt.audienceStr }

/-- A fresh payload: `exp` in the future relative to time 100. -/
def payloadFresh : Jwt.Payload :=
  { payloadExpired with exp := 1000 }

/-- A fresh payload whose issuer is wrong. -/
def payloadBadIss : Jwt.Payload :=
  { payloadFresh with iss := "some-other-service".toList }

/-- A fresh payload carrying a not-before claim in the future relative
to time 100. -/
def payloadNbf : Jwt.Payload :=
  { payloadFresh with nbf := some 500 }

/-- The subject id of the spec's end-to-end example. -/
def userIdA : List Char := "507f1f77bcf86cd799439011".toList

/-- The email of the spec's end-to-end example (mixed case). -/
def emailA : List Char := "Test@Example.com".toList

end Fixtures

/-! ## Base64 lemmas -/

namespace B64

theorem b64DecChar_b64EncChar : ∀ n < 64, b64DecChar (b64EncChar n) = some n := by
  decide

theorem b64EncChar_ne_colon : ∀ n < 64, b64EncChar n ≠ ':' := by
  decide

theorem toSextets_lt_64 : ∀ bs : List Nat, (∀ b ∈ bs, b < 256) →
    ∀ s ∈ toSextets bs, s < 64
  | [], _ => by simp [toSextets]
  | [a], h => by
    have ha : a < 256 := h a (by simp)
    simp only [toSextets, List.mem_cons, List.not_mem_nil, or_false]
    rintro s (rfl | rfl) <;> omega
  | [a, b], h => by
    have ha : a < 256 := h a (by simp)
    have hb : b < 256 := h b (by simp)
    simp only [toSextets, List.mem_cons, List.not_mem_nil, or_false]
    rintro s (rfl | rfl | rfl) <;> omega
  | a :: b :: c :: rest, h => by
    have ha : a < 256 := h a (by simp)
    have hb : b < 256 := h b (by simp)
    have hc : c < 256 := h c (by simp)
    have ih := toSextets_lt_64 rest (fun x hx => h x (by simp [hx]))
    simp only [toSextets, List.mem_cons]
    rintro s (rfl | rfl | rfl | rfl | hs)
    · omega
    · omega
    · omega
    · omega
    · exact ih s hs

theorem fromSextets_toSextets : ∀ bs : List Nat, (∀ b ∈ bs, b < 256) →
    fromSextets (toSextets bs) = bs
  | [], _ => rfl
  | [a], h => by
    have ha : a < 256 := h a (by simp)
    simp only [toSextets, fromSextets, List.cons.injEq, and_true]
    omega
  | [a, b], h => by
    have ha : a < 256 := h a (by simp)
    have hb : b < 256 := h b (by simp)
    simp only [toSextets, fromSextets, List.cons.injEq, and_true]
    constructor
    · omega
    · omega
  | a :: b :: c :: rest, h => by
    have ha : a < 256 := h a (by simp)
    have hb : b < 256 := h b (by simp)
    have hc : c < 256 := h c (by simp)
    have ih := fromSextets_toSextets rest (fun x hx => h x (by simp [hx]))
    simp only [toSextets, fromSextets, ih, List.cons.injEq, and_true]
    refine ⟨by omega, by omega, by omega⟩

theorem filterMap_b64DecChar_map (xs : List Nat) (h : ∀ x ∈ xs, x < 64) :
    (xs.map b64EncChar).filterMap b64DecChar = xs := by
  induction xs with
  | nil => rfl
  | cons a t ih =>
    have ha := b64DecChar_b64EncChar a (h a (by simp))
    simp [List.filterMap_cons, ha, ih (fun x hx => h x (by simp [hx]))]

theorem b64DecChar_eq_none : b64DecChar '=' = none := by
  decide

theorem filterMap_b64DecChar_replicate (n : Nat) :
    (List.replicate n '=').filterMap b64DecChar = [] := by
  induction n with
  | zero => rfl
  | succ k ih => simp [List.replicate_succ, List.filterMap_cons, b64DecChar_eq_none, ih]

theorem b64DecodeLenient_b64Encode (bs : List Nat) (h : ∀ b ∈ bs, b < 256) :
    b64DecodeLenient (b64Encode bs) = bs := by
  unfold b64DecodeLenient b64Encode
  rw [List.filterMap_append, filterMap_b64DecChar_map _ (toSextets_lt_64 bs h),
    filterMap_b64DecChar_replicate, List.append_nil, fromSextets_toSextets bs h]

theorem b64Encode_no_colon (bs : List Nat) (h : ∀ b ∈ bs, b < 256) :
    ':' ∉ b64Encode bs := by
  unfold b64Encode
  intro hmem
  rcases List.mem_append.mp hmem with hm | hm
  · rcases List.mem_map.mp hm with ⟨s, hs, hEq⟩
    exact b64EncChar_ne_colon s (toSextets_lt_64 bs h s hs) hEq
  · have := List.eq_of_mem_replicate hm
    simp at this

theorem b64Encode_ne_nil : ∀ bs : List Nat, bs ≠ [] → b64Encode bs ≠ []
  | [], h => absurd rfl h
  | [a], _ => by simp [b64Encode, toSextets]
  | [a, b], _ => by simp [b64Encode, toSextets]
  | a :: b :: c :: rest, _ => by simp [b64Encode, toSextets]

end B64

/-! ## UTF-8 lemmas -/

namespace Utf8

theorem char_toNat_cases (c : Char) :
    c.toNat < 0xD800 ∨ (0xDFFF < c.toNat ∧ c.toNat < 0x110000) := by
  rcases c.valid with h | h
  · exact Or.inl h
  · exact Or.inr h

theorem utf8EncodeChar_lt (c : Char) : ∀ b ∈ utf8EncodeChar c, b < 256 := by
  have hv : c.toNat < 1114112 := by
    rcases char_toNat_cases c with h | h <;> omega
  intro b hb
  simp only [utf8EncodeChar] at hb
  by_cases h1 : c.toNat < 0x80
  · simp [h1] at hb; omega
  · by_cases h2 : c.toNat < 0x800
    · simp [h1, h2] at hb
      rcases hb with rfl | rfl <;> omega
    · by_cases h3 : c.toNat < 0x10000
      · simp [h1, h2, h3] at hb
        rcases hb with rfl | rfl | rfl <;> omega
      · simp [h1, h2, h3] at hb
        rcases hb with rfl | rfl | rfl | rfl <;> omega

theorem utf8EncodeChar_ne_nil (c : Char) : utf8EncodeChar c ≠ [] := by
  simp only [utf8EncodeChar]
  split_ifs <;> simp

theorem utf8Decode_step1 (b : Nat) (rest : List Nat) (h : b < 0x80) :
    utf8Decode (b :: rest) = (utf8Decode rest).map (fun s => Char.ofNat b :: s) := by
  conv_lhs => rw [utf8Decode.eq_def]
  dsimp only
  rw [if_pos h]

theorem utf8Decode_step2 (b b2 : Nat) (rest : List Nat) (h1 : ¬ b < 0x80)
    (h2 : ¬ b < 0xC0) (h3 : b < 0xE0) (hc : isCont b2 = true)
    (hn : 0x80 ≤ (b - 0xC0) * 64 + (b2 - 0x80)) :
    utf8Decode (b :: b2 :: rest) =
      (utf8Decode rest).map (fun s => Char.ofNat ((b - 0xC0) * 64 + (b2 - 0x80)) :: s) := by
  conv_lhs => rw [utf8Decode.eq_def]
  dsimp only
  rw [if_neg h1, if_neg h2, if_pos h3, hc]
  rw [if_pos rfl, if_pos hn]

theorem utf8Decode_step3 (b b2 b3 : Nat) (rest : List Nat) (h1 : ¬ b < 0x80)
    (h2 : ¬ b < 0xC0) (h3 : ¬ b < 0xE0) (h4 : b < 0xF0)
    (hc2 : isCont b2 = true) (hc3 : isCont b3 = true)
    (hn : 0x800 ≤ (b - 0xE0) * 4096 + (b2 - 0x80) * 64 + (b3 - 0x80) ∧
      ¬(0xD800 ≤ (b - 0xE0) * 4096 + (b2 - 0x80) * 64 + (b3 - 0x80) ∧
        (b - 0xE0) * 4096 + (b2 - 0x80) * 64 + (b3 - 0x80) ≤ 0xDFFF)) :
    utf8Decode (b :: b2 :: b3 :: rest) =
      (utf8Decode rest).map
        (fun s => Char.ofNat ((b - 0xE0) * 4096 + (b2 - 0x80) * 64 + (b3 - 0x80)) :: s) := by
  conv_lhs => rw [utf8Decode.eq_def]
  dsimp only
  rw [if_neg h1, if_neg h2, if_neg h3, if_pos h4, hc2, hc3]
  simp only [Bool.true_and]
  rw [if_pos trivial, if_pos hn]

theorem utf8Decode_step4 (b b2 b3 b4 : Nat) (rest : List Nat) (h1 : ¬ b < 0x80)
    (h2 : ¬ b < 0xC0) (h3 : ¬ b < 0xE0) (h4 : ¬ b < 0xF0) (h5 : b < 0xF8)
    (hc2 : isCont b2 = true) (hc3 : isCont b3 = true) (hc4 : isCont b4 = true)
    (hn : 0x10000 ≤ (b - 0xF0) * 262144 + (b2 - 0x80) * 4096 + (b3 - 0x80) * 64 + (b4 - 0x80) ∧
      (b - 0xF0) * 262144 + (b2 - 0x80) * 4096 + (b3 - 0x80) * 64 + (b4 - 0x80) < 0x110000) :
    utf8Decode (b :: b2 :: b3 :: b4 :: rest) =
      (utf8Decode rest).map
        (fun s => Char.ofNat
          ((b - 0xF0) * 262144 + (b2 - 0x80) * 4096 + (b3 - 0x80) * 64 + (b4 - 0x80)) :: s) := by
  conv_lhs => rw [utf8Decode.eq_def]
  dsimp only
  rw [if_neg h1, if_neg h2, if_neg h3, if_neg h4, if_pos h5, hc2, hc3, hc4]
  simp only [Bool.true_and]
  rw [if_pos trivial, if_pos hn]

theorem utf8Decode_encodeChar_append (c : Char) (rest : List Nat) :
    utf8Decode (utf8EncodeChar c ++ rest) =
      (utf8Decode rest).map (fun s => c :: s) := by
  have hofNat : Char.ofNat c.toNat = c := Char.ofNat_toNat c
  by_cases h1 : c.toNat < 0x80
  · have he : utf8EncodeChar c = [c.toNat] := by simp [utf8EncodeChar, h1]
    rw [he, List.cons_append, List.nil_append, utf8Decode_step1 _ _ h1, hofNat]
  · by_cases h2 : c.toNat < 0x800
    · have he : utf8EncodeChar c = [0xC0 + c.toNat / 64, 0x80 + c.toNat % 64] := by
        simp [utf8EncodeChar, h1, h2]
      have hcont : isCont (0x80 + c.toNat % 64) = true := by
        simp only [isCont, decide_eq_true_eq]; omega
      have harith : (0xC0 + c.toNat / 64 - 0xC0) * 64 + (0x80 + c.toNat % 64 - 0x80)
          = c.toNat := by omega
      rw [he, List.cons_append, List.cons_append, List.nil_append,
        utf8Decode_step2 _ _ _ (by omega) (by omega) (by omega) hcont (by omega),
        harith, hofNat]
    · by_cases h3 : c.toNat < 0x10000
      · have he : utf8EncodeChar c =
            [0xE0 + c.toNat / 4096, 0x80 + c.toNat / 64 % 64, 0x80 + c.toNat % 64] := by
          simp [utf8EncodeChar, h1, h2, h3]
        have hcont2 : isCont (0x80 + c.toNat / 64 % 64) = true := by
          simp only [isCont, decide_eq_true_eq]; omega
        have hcont3 : isCont (0x80 + c.toNat % 64) = true := by
          simp only [isCont, decide_eq_true_eq]; omega
        have harith : (0xE0 + c.toNat / 4096 - 0xE0) * 4096 +
            (0x80 + c.toNat / 64 % 64 - 0x80) * 64 + (0x80 + c.toNat % 64 - 0x80)
            = c.toNat := by omega
        have hcond : 0x800 ≤ c.toNat ∧ ¬(0xD800 ≤ c.toNat ∧ c.toNat ≤ 0xDFFF) := by
          rcases char_toNat_cases c with h | h <;> omega
        rw [he, List.cons_append, List.cons_append, List.cons_append, List.nil_append,
          utf8Decode_step3 _ _ _ _ (by omega) (by omega) (by omega) (by omega)
            hcont2 hcont3 (by rw [harith]; exact hcond),
          harith, hofNat]
      · have h4 : c.toNat < 0x110000 := by
          rcases char_toNat_cases c with h | h <;> omega
        have he : utf8EncodeChar c =
            [0xF0 + c.toNat / 262144, 0x80 + c.toNat / 4096 % 64,
             0x80 + c.toNat / 64 % 64, 0x80 + c.toNat % 64] := by
          simp [utf8EncodeChar, h1, h2, h3]
        have hcont2 : isCont (0x80 + c.toNat / 4096 % 64) = true := by
          simp only [isCont, decide_eq_true_eq]; omega
        have hcont3 : isCont (0x80 + c.toNat / 64 % 64) = true := by
          simp only [isCont, decide_eq_true_eq]; omega
        have hcont4 : isCont (0x80 + c.toNat % 64) = true := by
          simp only [isCont, decide_eq_true_eq]; omega
        have harith : (0xF0 + c.toNat / 262144 - 0xF0) * 262144 +
            (0x80 + c.toNat / 4096 % 64 - 0x80) * 4096 +
            (0x80 + c.toNat / 64 % 64 - 0x80) * 64 + (0x80 + c.toNat % 64 - 0x80)
            = c.toNat := by omega
        have hcond : 0x10000 ≤ c.toNat ∧ c.toNat < 0x110000 := by omega
        rw [he, List.cons_append, List.cons_append, List.cons_append, List.cons_append,
          List.nil_append,
          utf8Decode_step4 _ _ _ _ _ (by omega) (by omega) (by omega) (by omega) (by omega)
            hcont2 hcont3 hcont4 (by rw [harith]; exact hcond),
          harith, hofNat]

theorem utf8Decode_utf8Encode (s : List Char) : utf8Decode (utf8Encode s) = some s := by
  induction s with
  | nil => rfl
  | cons c t ih =>
    have he : utf8Encode (c :: t) = utf8EncodeChar c ++ utf8Encode t := by
      simp [utf8Encode]
    rw [he, utf8Decode_encodeChar_append, ih]
    rfl

theorem utf8Encode_lt (s : List Char) : ∀ b ∈ utf8Encode s, b < 256 := by
  intro b hb
  simp only [utf8Encode, List.mem_flatten, List.mem_map] at hb
  rcases hb with ⟨l, ⟨c, _, rfl⟩, hbl⟩
  exact utf8EncodeChar_lt c b hbl

theorem utf8Encode_ne_nil (s : List Char) (h : s ≠ []) : utf8Encode s ≠ [] := by
  cases s with
  | nil => exact absurd rfl h
  | cons c t =>
    have he : utf8Encode (c :: t) = utf8EncodeChar c ++ utf8Encode t := by
      simp [utf8Encode]
    rw [he]
    simp [utf8EncodeChar_ne_nil c]

end Utf8

/-! ## Padding, chunking and CBC lemmas -/

namespace Cbc

theorem pkcs7Pad_length (bs : List Nat) :
    (pkcs7Pad bs).length = bs.length + (16 - bs.length % 16) := by
  simp [pkcs7Pad]

theorem pkcs7Pad_length_mod (bs : List Nat) : (pkcs7Pad bs).length % 16 = 0 := by
  rw [pkcs7Pad_length]
  omega

theorem pkcs7Pad_lt (bs : List Nat) (h : ∀ b ∈ bs, b < 256) :
    ∀ b ∈ pkcs7Pad bs, b < 256 := by
  intro b hb
  rcases List.mem_append.mp hb with h1 | h2
  · exact h b h1
  · have := List.eq_of_mem_replicate h2
    omega

theorem pkcs7Unpad_append_replicate (bs : List Nat) (p : Nat)
    (h1 : 1 ≤ p) (h2 : p ≤ 16) :
    pkcs7Unpad (bs ++ List.replicate p p) = some bs := by
  have hsplit : List.replicate p p = List.replicate (p - 1) p ++ [p] := by
    have h := List.replicate_succ' (p - 1) p
    rw [show p - 1 + 1 = p from by omega] at h
    exact h
  have hlen : (bs ++ List.replicate p p).length = bs.length + p := by simp
  have hlast : (bs ++ List.replicate p p).getLast? = some p := by
    rw [hsplit, ← List.append_assoc, List.getLast?_concat]
  have hidx : (bs ++ List.replicate p p).length - p = bs.length := by omega
  have hdrop : (bs ++ List.replicate p p).drop bs.length = List.replicate p p :=
    List.drop_left bs _
  have htake : (bs ++ List.replicate p p).take bs.length = bs :=
    List.take_left bs _
  unfold pkcs7Unpad
  rw [hlast]
  dsimp only
  rw [if_pos ?cond]
  case cond =>
    refine ⟨h1, h2, by omega, ?_⟩
    rw [hidx, hdrop]
    simp only [List.all_eq_true, decide_eq_true_eq]
    intro x hx
    exact List.eq_of_mem_replicate hx
  rw [hidx, htake]

theorem pkcs7Unpad_pkcs7Pad (bs : List Nat) : pkcs7Unpad (pkcs7Pad bs) = some bs := by
  rw [pkcs7Pad]
  exact pkcs7Unpad_append_replicate bs _ (by omega) (by omega)

theorem chunks16Aux_irrel : ∀ fuel bs, bs.length ≤ fuel →
    chunks16Aux fuel bs = chunks16Aux bs.length bs := by
  intro fuel
  induction fuel using Nat.strong_induction_on with
  | _ fuel ih =>
    intro bs hle
    cases fuel with
    | zero =>
      cases bs with
      | nil => rfl
      | cons b rest => simp at hle
    | succ f =>
      cases bs with
      | nil => rfl
      | cons b rest =>
        simp only [List.length_cons] at hle
        simp only [chunks16Aux, List.length_cons]
        congr 1
        have hdl : (rest.drop 15).length ≤ f := by
          simp only [List.length_drop]
          omega
        have hdl2 : (rest.drop 15).length ≤ rest.length := by
          simp only [List.length_drop]
          omega
        rw [ih f (by omega) (rest.drop 15) hdl,
          ← ih rest.length (by omega) (rest.drop 15) hdl2]

theorem chunks16_cons_eq (bs : List Nat) (h : bs ≠ []) :
    chunks16 bs = bs.take 16 :: chunks16 (bs.drop 16) := by
  cases bs with
  | nil => exact absurd rfl h
  | cons b rest =>
    show chunks16Aux (b :: rest).length (b :: rest) = _
    simp only [List.length_cons, chunks16Aux]
    congr 1
    rw [chunks16Aux_irrel rest.length (rest.drop 15)
      (by simp only [List.length_drop]; omega)]
    rfl

theorem chunks16_flatten : ∀ blocks : List (List Nat),
    (∀ b ∈ blocks, b.length = 16) → chunks16 blocks.flatten = blocks
  | [], _ => by simp [chunks16, chunks16Aux]
  | blk :: rest, h => by
    have hlen : blk.length = 16 := h blk (by simp)
    have ih := chunks16_flatten rest (fun b hb => h b (by simp [hb]))
    have hne : blk ++ rest.flatten ≠ [] := by
      have : (blk ++ rest.flatten).length = 16 + rest.flatten.length := by
        simp [hlen]
      intro hnil
      rw [hnil] at this
      simp at this
      omega
    rw [List.flatten_cons, chunks16_cons_eq _ hne]
    have h1 : (blk ++ rest.flatten).take 16 = blk := by
      rw [← hlen]
      exact List.take_left blk _
    have h2 : (blk ++ rest.flatten).drop 16 = rest.flatten := by
      rw [← hlen]
      exact List.drop_left blk _
    rw [h1, h2, ih]

theorem chunks16_valid : ∀ bs : List Nat, bs.length % 16 = 0 → (∀ x ∈ bs, x < 256) →
    ∀ blk ∈ chunks16 bs, blk.length = 16 ∧ ∀ x ∈ blk, x < 256
  | [], _, _ => by simp [chunks16, chunks16Aux]
  | b :: rest, hmod, hb => by
    rw [chunks16_cons_eq _ (by simp)]
    intro blk hblk
    have hlen : 16 ≤ (b :: rest).length := by
      by_contra hlt
      simp only [List.length_cons] at hlt hmod
      omega
    rcases List.mem_cons.mp hblk with rfl | h2
    · refine ⟨?_, ?_⟩
      · simp only [List.length_take]
        omega
      · intro x hx
        exact hb x (List.mem_of_mem_take hx)
    · have hmod2 : ((b :: rest).drop 16).length % 16 = 0 := by
        simp only [List.length_drop] at hmod ⊢
        simp only [List.length_cons] at hmod ⊢
        omega
      have hrec := chunks16_valid ((b :: rest).drop 16) hmod2
        (fun x hx => hb x (List.mem_of_mem_drop hx)) blk h2
      exact hrec
termination_by bs => bs.length
decreasing_by
  simp only [List.length_drop, List.length_cons]
  omega

theorem flatten_length_16 : ∀ blocks : List (List Nat),
    (∀ b ∈ blocks, b.length = 16) → blocks.flatten.length = 16 * blocks.length
  | [], _ => rfl
  | blk :: rest, h => by
    have hlen : blk.length = 16 := h blk (by simp)
    have ih := flatten_length_16 rest (fun b hb => h b (by simp [hb]))
    simp [List.flatten_cons, hlen, ih]
    ring

theorem xorBytes_length (xs ys : List Nat) :
    (xorBytes xs ys).length = min xs.length ys.length := by
  simp [xorBytes]

theorem xorBytes_lt : ∀ xs ys : List Nat, (∀ x ∈ xs, x < 256) → (∀ y ∈ ys, y < 256) →
    ∀ z ∈ xorBytes xs ys, z < 256
  | [], _, _, _ => by simp [xorBytes]
  | _ :: _, [], _, _ => by simp [xorBytes]
  | x :: xs, y :: ys, hx, hy => by
    simp only [xorBytes, List.zipWith_cons_cons, List.mem_cons]
    rintro z (rfl | hz)
    · have hx0 : x < 256 := hx x (by simp)
      have hy0 : y < 256 := hy y (by simp)
      have h256 : (256 : Nat) = 2 ^ 8 := by norm_num
      exact h256.symm ▸ @Nat.xor_lt_two_pow x y 8 (h256 ▸ hx0) (h256 ▸ hy0)
    · exact xorBytes_lt xs ys (fun a ha => hx a (by simp [ha]))
        (fun a ha => hy a (by simp [ha])) z hz

theorem xorBytes_cancel : ∀ xs ys : List Nat, xs.length = ys.length →
    xorBytes xs (xorBytes xs ys) = ys
  | [], [], _ => rfl
  | [], _ :: _, h => by simp at h
  | _ :: _, [], h => by simp at h
  | x :: xs, y :: ys, h => by
    simp only [xorBytes, List.zipWith_cons_cons, List.cons.injEq]
    refine ⟨by rw [← Nat.xor_assoc, Nat.xor_self, Nat.zero_xor], ?_⟩
    exact xorBytes_cancel xs ys (by simpa using h)

theorem cbcEnc_length (E : List Nat → List Nat) :
    ∀ blocks prev, (cbcEnc E prev blocks).length = blocks.length
  | [], _ => rfl
  | _ :: rest, prev => by
    simp only [cbcEnc, List.length_cons]
    rw [cbcEnc_length E rest]

theorem cbcEnc_valid (E : List Nat → List Nat)
    (hE : ∀ b, b.length = 16 → (∀ x ∈ b, x < 256) →
      (E b).length = 16 ∧ ∀ x ∈ E b, x < 256) :
    ∀ blocks prev, (∀ b ∈ blocks, b.length = 16 ∧ ∀ x ∈ b, x < 256) →
      prev.length = 16 → (∀ x ∈ prev, x < 256) →
      ∀ cb ∈ cbcEnc E prev blocks, cb.length = 16 ∧ ∀ x ∈ cb, x < 256
  | [], _, _, _, _ => by simp [cbcEnc]
  | b :: rest, prev, hbl, hpl, hpb => by
    obtain ⟨hbl16, hbb⟩ := hbl b (by simp)
    have hxl : (xorBytes prev b).length = 16 := by
      rw [xorBytes_length]
      omega
    have hxb := xorBytes_lt prev b hpb hbb
    obtain ⟨hEl, hEb⟩ := hE (xorBytes prev b) hxl hxb
    intro cb hcb
    simp only [cbcEnc, List.mem_cons] at hcb
    rcases hcb with rfl | h2
    · exact ⟨hEl, hEb⟩
    · exact cbcEnc_valid E hE rest (E (xorBytes prev b))
        (fun x hx => hbl x (by simp [hx])) hEl hEb cb h2

theorem cbcDec_cbcEnc (E D : List Nat → List Nat)
    (hED : ∀ b, b.length = 16 → (∀ x ∈ b, x < 256) → D (E b) = b)
    (hE : ∀ b, b.length = 16 → (∀ x ∈ b, x < 256) →
      (E b).length = 16 ∧ ∀ x ∈ E b, x < 256) :
    ∀ blocks prev, (∀ b ∈ blocks, b.length = 16 ∧ ∀ x ∈ b, x < 256) →
      prev.length = 16 → (∀ x ∈ prev, x < 256) →
      cbcDec D prev (cbcEnc E prev blocks) = blocks
  | [], _, _, _, _ => rfl
  | b :: rest, prev, hbl, hpl, hpb => by
    obtain ⟨hbl16, hbb⟩ := hbl b (by simp)
    have hxl : (xorBytes prev b).length = 16 := by
      rw [xorBytes_length]
      omega
    have hxb := xorBytes_lt prev b hpb hbb
    obtain ⟨hEl, hEb⟩ := hE (xorBytes prev b) hxl hxb
    simp only [cbcEnc, cbcDec, List.cons.injEq]
    rw [hED (xorBytes prev b) hxl hxb]
    refine ⟨xorBytes_cancel prev b (by omega), ?_⟩
    exact cbcDec_cbcEnc E D hED hE rest (E (xorBytes prev b))
      (fun x hx => hbl x (by simp [hx])) hEl hEb

end Cbc

/-! ## Colon-splitting lemmas -/

namespace Encryption

theorem splitOnColon_of_no_colon (s : List Char) (h : ':' ∉ s) :
    splitOnColon s = [s] := by
  induction s with
  | nil => rfl
  | cons c t ih =>
    have hc : ¬ c = ':' := fun e => h (by simp [e])
    have ht : ':' ∉ t := fun m => h (by simp [m])
    simp [splitOnColon, hc, ih ht]

theorem splitOnColon_append (s1 s2 : List Char) (h : ':' ∉ s1) :
    splitOnColon (s1 ++ ':' :: s2) = s1 :: splitOnColon s2 := by
  induction s1 with
  | nil => simp [splitOnColon]
  | cons c t ih =>
    have hc : ¬ c = ':' := fun e => h (by simp [e])
    have ht : ':' ∉ t := fun m => h (by simp [m])
    simp [splitOnColon, hc, ih ht]

end Encryption

/-! ## Encryption module lemmas -/

namespace Cbc

theorem flatten_chunks16 : ∀ bs : List Nat, (chunks16 bs).flatten = bs
  | [] => by simp [chunks16, chunks16Aux]
  | b :: rest => by
    rw [chunks16_cons_eq _ (by simp), List.flatten_cons,
      flatten_chunks16 ((b :: rest).drop 16), List.take_append_drop]
termination_by bs => bs.length
decreasing_by
  simp only [List.length_drop, List.length_cons]
  omega

end Cbc

namespace Encryption

open JsString B64 Utf8 Cbc

theorem getEncryptionKey_some (k : List Char) (h : k.length = 32) :
    getEncryptionKey (some k) = .ok k := by
  unfold getEncryptionKey
  dsimp only
  rw [if_neg (by omega)]

theorem encrypt_eq_token (blockEnc : List Char → List Nat → List Nat)
    (k : List Char) (iv : List Nat) (text : List Char)
    (hklen : k.length = 32) (htext : text ≠ []) (htrim : (jsTrim text).length ≠ 0) :
    encrypt blockEnc (some k) iv text =
      .ok (b64Encode iv ++ ':' ::
        b64Encode ((cbcEnc (blockEnc k) iv
          (chunks16 (pkcs7Pad (utf8Encode text)))).flatten)) := by
  unfold encrypt
  rw [if_neg (not_or.mpr ⟨htext, htrim⟩), getEncryptionKey_some k hklen]

theorem decrypt_encrypt_token (blockEnc blockDec : List Char → List Nat → List Nat)
    (k : List Char) (iv : List Nat) (text : List Char)
    (hklen : k.length = 32)
    (hED : ∀ b, b.length = 16 → (∀ x ∈ b, x < 256) → blockDec k (blockEnc k b) = b)
    (hE : ∀ b, b.length = 16 → (∀ x ∈ b, x < 256) →
      (blockEnc k b).length = 16 ∧ ∀ x ∈ blockEnc k b, x < 256)
    (hiv : iv.length = 16) (hivb : ∀ x ∈ iv, x < 256) :
    decrypt blockDec (some k)
      (b64Encode iv ++ ':' ::
        b64Encode ((cbcEnc (blockEnc k) iv
          (chunks16 (pkcs7Pad (utf8Encode text)))).flatten)) = .ok text := by
  have hpadlt := pkcs7Pad_lt (utf8Encode text) (utf8Encode_lt text)
  have hpadmod := pkcs7Pad_length_mod (utf8Encode text)
  have hblocks := chunks16_valid (pkcs7Pad (utf8Encode text)) hpadmod hpadlt
  have hcbvalid := cbcEnc_valid (blockEnc k) hE
    (chunks16 (pkcs7Pad (utf8Encode text))) iv hblocks hiv hivb
  have hctlen16 : ∀ b ∈ cbcEnc (blockEnc k) iv (chunks16 (pkcs7Pad (utf8Encode text))),
      b.length = 16 := fun b hb => (hcbvalid b hb).1
  have hctflat := flatten_length_16 _ hctlen16
  have hctlt : ∀ x ∈ (cbcEnc (blockEnc k) iv
      (chunks16 (pkcs7Pad (utf8Encode text)))).flatten, x < 256 := by
    intro x hx
    rcases List.mem_flatten.mp hx with ⟨l, hl, hxl⟩
    exact (hcbvalid l hl).2 x hxl
  have hpadpos : 0 < (pkcs7Pad (utf8Encode text)).length := by
    rw [pkcs7Pad_length]
    omega
  have hpadne : pkcs7Pad (utf8Encode text) ≠ [] := List.ne_nil_of_length_pos hpadpos
  have hblockspos : 0 < (chunks16 (pkcs7Pad (utf8Encode text))).length := by
    cases hp : pkcs7Pad (utf8Encode text) with
    | nil => exact absurd hp hpadne
    | cons b rest =>
      rw [chunks16_cons_eq _ (by simp)]
      simp
  have hctpos : 0 < ((cbcEnc (blockEnc k) iv
      (chunks16 (pkcs7Pad (utf8Encode text)))).flatten).length := by
    rw [hctflat, cbcEnc_length]
    omega
  have hivdec := b64DecodeLenient_b64Encode iv hivb
  have hctdec := b64DecodeLenient_b64Encode _ hctlt
  have hsplit : splitOnColon (b64Encode iv ++ ':' ::
      b64Encode ((cbcEnc (blockEnc k) iv
        (chunks16 (pkcs7Pad (utf8Encode text)))).flatten)) =
      [b64Encode iv, b64Encode ((cbcEnc (blockEnc k) iv
        (chunks16 (pkcs7Pad (utf8Encode text)))).flatten)] := by
    rw [splitOnColon_append _ _ (b64Encode_no_colon iv hivb),
      splitOnColon_of_no_colon _ (b64Encode_no_colon _ hctlt)]
  unfold decrypt
  rw [if_neg (by simp), getEncryptionKey_some k hklen]
  dsimp only
  rw [hsplit]
  dsimp only
  rw [hivdec, hctdec]
  rw [if_neg (by omega : ¬ iv.length ≠ 16)]
  rw [if_neg ?hlen]
  case hlen =>
    rw [hctflat, cbcEnc_length]
    push_neg
    constructor
    · omega
    · omega
  rw [chunks16_flatten _ hctlen16,
    cbcDec_cbcEnc (blockEnc k) (blockDec k) hED hE _ iv hblocks hiv hivb,
    flatten_chunks16, pkcs7Unpad_pkcs7Pad]
  dsimp only
  rw [utf8Decode_utf8Encode]

end Encryption

/-! ## Helper lemmas for concrete instantiations and injectivity -/

namespace Fixtures

theorem toyBlock_invol (k : List Char) (b : List Nat) (hb : ∀ x ∈ b, x < 256) :
    toyBlock k (toyBlock k b) = b := by
  simp only [toyBlock, List.map_map]
  conv_rhs => rw [← List.map_id b]
  apply List.map_congr_left
  intro a ha
  have := hb a ha
  simp only [Function.comp_apply, id_eq]
  omega

theorem toyBlock_valid (k : List Char) (b : List Nat) (hlen : b.length = 16)
    (_hb : ∀ x ∈ b, x < 256) :
    (toyBlock k b).length = 16 ∧ ∀ x ∈ toyBlock k b, x < 256 := by
  constructor
  · simp [toyBlock, hlen]
  · intro x hx
    rcases List.mem_map.mp hx with ⟨a, _, rfl⟩
    omega

end Fixtures

namespace JsString

theorem jsTrim_eq_nil_of_all_ws (s : List Char)
    (h : ∀ c ∈ s, jsIsWhitespace c = true) : jsTrim s = [] := by
  unfold jsTrim
  rw [List.dropWhile_eq_nil_iff.mpr h]
  rfl

end JsString

namespace B64

theorem b64Encode_inj (bs1 bs2 : List Nat) (h1 : ∀ b ∈ bs1, b < 256)
    (h2 : ∀ b ∈ bs2, b < 256) (he : b64Encode bs1 = b64Encode bs2) : bs1 = bs2 := by
  rw [← b64DecodeLenient_b64Encode bs1 h1, ← b64DecodeLenient_b64Encode bs2 h2, he]

end B64

namespace Encryption

open B64

theorem token_iv_inj (iv1 ct1 iv2 ct2 : List Nat)
    (hiv1 : ∀ x ∈ iv1, x < 256) (hct1 : ∀ x ∈ ct1, x < 256)
    (hiv2 : ∀ x ∈ iv2, x < 256) (hct2 : ∀ x ∈ ct2, x < 256)
    (h : b64Encode iv1 ++ ':' :: b64Encode ct1 = b64Encode iv2 ++ ':' :: b64Encode ct2) :
    iv1 = iv2 := by
  have hs := congrArg splitOnColon h
  rw [splitOnColon_append _ _ (b64Encode_no_colon iv1 hiv1),
    splitOnColon_of_no_colon _ (b64Encode_no_colon ct1 hct1),
    splitOnColon_append _ _ (b64Encode_no_colon iv2 hiv2),
    splitOnColon_of_no_colon _ (b64Encode_no_colon ct2 hct2)] at hs
  have hhead : b64Encode iv1 = b64Encode iv2 := by
    injection hs with h1 h2
  exact b64Encode_inj iv1 iv2 hiv1 hiv2 hhead

end Encryption

namespace Encryption

open JsString B64 Utf8 Cbc

theorem cbc_ct_lt (blockEnc : List Char → List Nat → List Nat) (k : List Char)
    (iv : List Nat) (text : List Char)
    (hE : ∀ b, b.length = 16 → (∀ x ∈ b, x < 256) →
      (blockEnc k b).length = 16 ∧ ∀ x ∈ blockEnc k b, x < 256)
    (hiv : iv.length = 16) (hivb : ∀ x ∈ iv, x < 256) :
    ∀ x ∈ (cbcEnc (blockEnc k) iv (chunks16 (pkcs7Pad (utf8Encode text)))).flatten,
      x < 256 := by
  have hblocks := chunks16_valid (pkcs7Pad (utf8Encode text))
    (pkcs7Pad_length_mod (utf8Encode text))
    (pkcs7Pad_lt (utf8Encode text) (utf8Encode_lt text))
  have hcbvalid := cbcEnc_valid (blockEnc k) hE
    (chunks16 (pkcs7Pad (utf8Encode text))) iv hblocks hiv hivb
  intro x hx
  rcases List.mem_flatten.mp hx with ⟨l, hl, hxl⟩
  exact (hcbvalid l hl).2 x hxl

theorem getEncryptionKey_ok_iff (envKey : Option (List Char)) (k : List Char) :
    getEncryptionKey envKey = .ok k ↔ envKey = some k ∧ k.length = 32 := by
  cases envKey with
  | none => simp [getEncryptionKey]
  | some k2 =>
    unfold getEncryptionKey
    dsimp only
    by_cases hl : k2.length = 32
    · rw [if_neg (by omega)]
      simp only [Except.ok.injEq, Option.some.injEq]
      constructor
      · rintro rfl
        exact ⟨rfl, hl⟩
      · rintro ⟨rfl, _⟩
        rfl
    · rw [if_pos (by omega)]
      constructor
      · intro h
        exact Except.noConfusion h
      · rintro ⟨hk, hlen⟩
        injection hk with hk2
        subst hk2
        exact absurd hlen hl

theorem init_eq_getEncryptionKey (envKey : Option (List Char)) :
    initEncryptionModule envKey = getEncryptionKey envKey := rfl

end Encryption

/-! ## Claims -/

/-- **C1 (counterexample).** The claim quantifies over every non-empty
string, but at the non-empty string `" "` the live `encrypt` rejects
the input (it is whitespace-only), so `decrypt(encrypt(" "))` is an
error, not `" "`. -/
theorem claim_C1_counterexample :
    (Encryption.encrypt Fixtures.toyBlock (some Fixtures.key32) Fixtures.iv0 [' ']).bind
      (Encryption.decrypt Fixtures.toyBlock (some Fixtures.key32))
      = .error Encryption.EncError.emptyInput ∧
    (Except.error Encryption.EncError.emptyInput ≠
      (.ok [' '] : Except Encryption.EncError (List Char))) :=
  ⟨rfl, by simp⟩

/-- **C1 (amended).** For every 32-character key, every 16-byte IV,
every keyed block-cipher pair with `D ∘ E = id` on byte blocks, and
every string that is not empty and not whitespace-only (the inputs
`encrypt` accepts), decrypting the result of encrypting the string
with the same key returns exactly the string. -/
theorem claim_C1_roundtrip (blockEnc blockDec : List Char → List Nat → List Nat)
    (k : List Char) (iv : List Nat) (text : List Char)
    (hklen : k.length = 32)
    (hED : ∀ b, b.length = 16 → (∀ x ∈ b, x < 256) →
      blockDec k (blockEnc k b) = b)
    (hE : ∀ b, b.length = 16 → (∀ x ∈ b, x < 256) →
      (blockEnc k b).length = 16 ∧ ∀ x ∈ blockEnc k b, x < 256)
    (hiv : iv.length = 16) (hivb : ∀ x ∈ iv, x < 256)
    (htrim : JsString.jsTrim text ≠ []) :
    (Encryption.encrypt blockEnc (some k) iv text).bind
      (Encryption.decrypt blockDec (some k)) = .ok text := by
  have htext : text ≠ [] := by
    intro he
    rw [he] at htrim
    exact htrim rfl
  have hlen : (JsString.jsTrim text).length ≠ 0 := by
    intro hz
    exact htrim (List.eq_nil_of_length_eq_zero hz)
  rw [Encryption.encrypt_eq_token blockEnc k iv text hklen htext hlen]
  exact Encryption.decrypt_encrypt_token blockEnc blockDec k iv text hklen hED hE hiv hivb

/-- Witness for C1 at the spec's example Aadhaar plaintext, the test
suite's 32-character key, a concrete IV, and a concrete involutive
block permutation. -/
theorem claim_C1_roundtrip_witness :
    (Encryption.encrypt Fixtures.toyBlock (some Fixtures.key32) Fixtures.iv0
      Fixtures.aadhaar).bind (Encryption.decrypt Fixtures.toyBlock (some Fixtures.key32))
      = .ok Fixtures.aadhaar :=
  claim_C1_roundtrip Fixtures.toyBlock Fixtures.toyBlock Fixtures.key32 Fixtures.iv0
    Fixtures.aadhaar (by decide)
    (fun b _ hb => Fixtures.toyBlock_invol Fixtures.key32 b hb)
    (fun b hlen hb => Fixtures.toyBlock_valid Fixtures.key32 b hlen hb)
    (by decide) (by decide) (by decide)

/-- **C3 (counterexample).** The claim requires `decrypt` to fail with
an input error whenever the ciphertext part is not valid base64, with
no plaintext returned.  But base64 decoding is lenient: on the token
whose ciphertext part starts with a stray `!` (hence is not valid
base64) and which splits into exactly two colon parts, `decrypt`
returns the original plaintext. -/
theorem claim_C3_counterexample :
    (Encryption.splitOnColon Fixtures.mangledToken).length = 2 ∧
    B64.b64Valid ((Encryption.splitOnColon Fixtures.mangledToken).getD 1 []) = false ∧
    Encryption.decrypt Fixtures.toyBlock (some Fixtures.key32) Fixtures.mangledToken
      = .ok Fixtures.aadhaar :=
  ⟨rfl, rfl, rfl⟩

/-- **C3 (amended).** `decrypt` fails with `InvalidInputError` — and
returns no plaintext — for every token that is empty or does not split
into exactly two colon-delimited parts (e.g. `"invalidformat"` or
`"a:b:c"`).  The base64 clause of the original claim does not hold:
the parts are decoded leniently, not validated. -/
theorem claim_C3_input_validation (blockDec : List Char → List Nat → List Nat)
    (k : List Char) (token : List Char) (hklen : k.length = 32) :
    (token = [] → Encryption.decrypt blockDec (some k) token
      = .error Encryption.EncError.emptyInput) ∧
    (token ≠ [] → (Encryption.splitOnColon token).length ≠ 2 →
      Encryption.decrypt blockDec (some k) token
        = .error Encryption.EncError.invalidFormat) := by
  constructor
  · rintro rfl
    rfl
  · intro hne hsplit
    unfold Encryption.decrypt
    rw [if_neg hne, Encryption.getEncryptionKey_some k hklen]
    dsimp only
    cases hs : Encryption.splitOnColon token with
    | nil => rfl
    | cons a t =>
      cases t with
      | nil => rfl
      | cons b t2 =>
        cases t2 with
        | nil =>
          rw [hs] at hsplit
          simp at hsplit
        | cons c t3 => rfl

/-- Witness for C3 at the spec's two example inputs: the empty token
and `"a:b:c"`. -/
theorem claim_C3_input_validation_witness :
    Encryption.decrypt Fixtures.toyBlock (some Fixtures.key32) []
      = .error Encryption.EncError.emptyInput ∧
    Encryption.decrypt Fixtures.toyBlock (some Fixtures.key32) "a:b:c".toList
      = .error Encryption.EncError.invalidFormat :=
  ⟨(claim_C3_input_validation Fixtures.toyBlock Fixtures.key32 [] (by decide)).1 rfl,
   (claim_C3_input_validation Fixtures.toyBlock Fixtures.key32 "a:b:c".toList
     (by decide)).2 (by decide) (by decide)⟩

/-- **C5 (counterexample).** The claim quantifies over every non-empty
plaintext, but at the non-empty plaintext `"  "` both encryption calls
reject the input identically (whitespace-only), so no two different
ciphertext tokens are produced, under distinct IVs. -/
theorem claim_C5_counterexample :
    Fixtures.iv0 ≠ Fixtures.ivOne ∧
    Encryption.encrypt Fixtures.toyBlock (some Fixtures.key32) Fixtures.iv0 [' ', ' '] =
      Encryption.encrypt Fixtures.toyBlock (some Fixtures.key32) Fixtures.ivOne
        [' ', ' '] :=
  ⟨by decide, rfl⟩

/-- **C5 (amended).** For every plaintext that is not whitespace-only
(the inputs `encrypt` accepts) and any two distinct 16-byte IVs, the
two encryptions produce different ciphertext tokens, and both tokens
decrypt back to the plaintext. -/
theorem claim_C5_iv_randomization (blockEnc blockDec : List Char → List Nat → List Nat)
    (k : List Char) (iv1 iv2 : List Nat) (text : List Char)
    (hklen : k.length = 32)
    (hED : ∀ b, b.length = 16 → (∀ x ∈ b, x < 256) →
      blockDec k (blockEnc k b) = b)
    (hE : ∀ b, b.length = 16 → (∀ x ∈ b, x < 256) →
      (blockEnc k b).length = 16 ∧ ∀ x ∈ blockEnc k b, x < 256)
    (hiv1 : iv1.length = 16) (hivb1 : ∀ x ∈ iv1, x < 256)
    (hiv2 : iv2.length = 16) (hivb2 : ∀ x ∈ iv2, x < 256)
    (hne : iv1 ≠ iv2) (htrim : JsString.jsTrim text ≠ []) :
    ∃ t1 t2,
      Encryption.encrypt blockEnc (some k) iv1 text = .ok t1 ∧
      Encryption.encrypt blockEnc (some k) iv2 text = .ok t2 ∧
      t1 ≠ t2 ∧
      Encryption.decrypt blockDec (some k) t1 = .ok text ∧
      Encryption.decrypt blockDec (some k) t2 = .ok text := by
  have htext : text ≠ [] := by
    intro he
    rw [he] at htrim
    exact htrim rfl
  have hlen : (JsString.jsTrim text).length ≠ 0 := by
    intro hz
    exact htrim (List.eq_nil_of_length_eq_zero hz)
  refine ⟨_, _,
    Encryption.encrypt_eq_token blockEnc k iv1 text hklen htext hlen,
    Encryption.encrypt_eq_token blockEnc k iv2 text hklen htext hlen, ?_,
    Encryption.decrypt_encrypt_token blockEnc blockDec k iv1 text hklen hED hE hiv1 hivb1,
    Encryption.decrypt_encrypt_token blockEnc blockDec k iv2 text hklen hED hE hiv2 hivb2⟩
  intro he
  exact hne (Encryption.token_iv_inj iv1 _ iv2 _ hivb1
    (Encryption.cbc_ct_lt blockEnc k iv1 text hE hiv1 hivb1) hivb2
    (Encryption.cbc_ct_lt blockEnc k iv2 text hE hiv2 hivb2) he)

/-- Witness for C5 at the example Aadhaar plaintext and two concrete
distinct IVs. -/
theorem claim_C5_iv_randomization_witness :
    ∃ t1 t2,
      Encryption.encrypt Fixtures.toyBlock (some Fixtures.key32) Fixtures.iv0
        Fixtures.aadhaar = .ok t1 ∧
      Encryption.encrypt Fixtures.toyBlock (some Fixtures.key32) Fixtures.ivOne
        Fixtures.aadhaar = .ok t2 ∧
      t1 ≠ t2 ∧
      Encryption.decrypt Fixtures.toyBlock (some Fixtures.key32) t1
        = .ok Fixtures.aadhaar ∧
      Encryption.decrypt Fixtures.toyBlock (some Fixtures.key32) t2
        = .ok Fixtures.aadhaar :=
  claim_C5_iv_randomization Fixtures.toyBlock Fixtures.toyBlock Fixtures.key32
    Fixtures.iv0 Fixtures.ivOne Fixtures.aadhaar (by decide)
    (fun b _ hb => Fixtures.toyBlock_invol Fixtures.key32 b hb)
    (fun b hlen hb => Fixtures.toyBlock_valid Fixtures.key32 b hlen hb)
    (by decide) (by decide) (by decide) (by decide) (by decide) (by decide)

/-- **C7 (counterexample).** The claim says the key is validated at
initialization (process start), before any `encrypt` or `decrypt`
call, and that a bad key makes initialization fail.  But loading the
live, test-exercised encryption module succeeds whatever the key — a
5-character key (and even an absent key) does not stop startup — and
the configuration failure only surfaces inside the first
`encrypt`/`decrypt` call. -/
theorem claim_C7_counterexample :
    Encryption.lazyModuleInit (some Fixtures.keyShort) = .ok () ∧
    Encryption.lazyModuleInit none = .ok () ∧
    Encryption.encrypt Fixtures.toyBlock (some Fixtures.keyShort) Fixtures.iv0
      Fixtures.aadhaar = .error Encryption.EncError.badKeyLength :=
  ⟨rfl, rfl, rfl⟩

/-- **C7 (amended).** The live cipher module's key validation is lazy,
not startup-time: loading the module never fails, and instead every
`encrypt` and `decrypt` call validates the key before any
cryptographic use — an absent key or a key whose length is not
exactly 32 fails the call with the corresponding configuration error,
and an accepted key is returned verbatim, never silently truncated or
padded.  (The module-level process-start check exists only in a dead
duplicate of the module.) -/
theorem claim_C7_lazy_key_validation (blockEnc blockDec : List Char → List Nat → List Nat)
    (envKey : Option (List Char)) (iv : List Nat) (text token : List Char)
    (htext : text ≠ []) (htrim : (JsString.jsTrim text).length ≠ 0)
    (htok : token ≠ []) :
    (Encryption.lazyModuleInit envKey = .ok ()) ∧
    (∀ k, Encryption.getEncryptionKey envKey = .ok k ↔
      envKey = some k ∧ k.length = 32) ∧
    (envKey = none →
      Encryption.encrypt blockEnc envKey iv text
        = .error Encryption.EncError.missingKey ∧
      Encryption.decrypt blockDec envKey token
        = .error Encryption.EncError.missingKey) ∧
    (∀ k, envKey = some k → k.length ≠ 32 →
      Encryption.encrypt blockEnc envKey iv text
        = .error Encryption.EncError.badKeyLength ∧
      Encryption.decrypt blockDec envKey token
        = .error Encryption.EncError.badKeyLength) := by
  refine ⟨rfl, Encryption.getEncryptionKey_ok_iff envKey, ?_, ?_⟩
  · rintro rfl
    constructor
    · unfold Encryption.encrypt
      rw [if_neg (not_or.mpr ⟨htext, htrim⟩)]
      rfl
    · unfold Encryption.decrypt
      rw [if_neg htok]
      rfl
  · rintro k rfl hlen
    have hkey : Encryption.getEncryptionKey (some k)
        = .error Encryption.EncError.badKeyLength := by
      unfold Encryption.getEncryptionKey
      dsimp only
      rw [if_pos hlen]
    constructor
    · unfold Encryption.encrypt
      rw [if_neg (not_or.mpr ⟨htext, htrim⟩), hkey]
    · unfold Encryption.decrypt
      rw [if_neg htok, hkey]

/-- Witness for C7: with the 5-character key the module loads fine but
both operations fail with the wrong-length configuration error; the
32-character test key is accepted and returned verbatim. -/
theorem claim_C7_lazy_key_validation_witness :
    Encryption.encrypt Fixtures.toyBlock (some Fixtures.keyShort) Fixtures.iv0
      Fixtures.aadhaar = .error Encryption.EncError.badKeyLength ∧
    Encryption.decrypt Fixtures.toyBlock (some Fixtures.keyShort)
      Fixtures.aadhaar = .error Encryption.EncError.badKeyLength ∧
    Encryption.getEncryptionKey (some Fixtures.key32) = .ok Fixtures.key32 :=
  ⟨((claim_C7_lazy_key_validation Fixtures.toyBlock Fixtures.toyBlock
      (some Fixtures.keyShort) Fixtures.iv0 Fixtures.aadhaar Fixtures.aadhaar
      (by decide) (by decide) (by decide)).2.2.2 Fixtures.keyShort rfl (by decide)).1,
   ((claim_C7_lazy_key_validation Fixtures.toyBlock Fixtures.toyBlock
      (some Fixtures.keyShort) Fixtures.iv0 Fixtures.aadhaar Fixtures.aadhaar
      (by decide) (by decide) (by decide)).2.2.2 Fixtures.keyShort rfl (by decide)).2,
   ((claim_C7_lazy_key_validation Fixtures.toyBlock Fixtures.toyBlock
      (some Fixtures.key32) Fixtures.iv0 Fixtures.aadhaar Fixtures.aadhaar
      (by decide) (by decide) (by decide)).2.1 Fixtures.key32).mpr ⟨rfl, by decide⟩⟩

/-- **C8.** `encrypt` fails with the input error — producing no
ciphertext token — on every input that is empty or consists only of
whitespace characters, whatever the key, IV and block cipher. -/
theorem claim_C8_whitespace_reject (blockEnc : List Char → List Nat → List Nat)
    (envKey : Option (List Char)) (iv : List Nat) (text : List Char)
    (h : text = [] ∨ ∀ c ∈ text, JsString.jsIsWhitespace c = true) :
    Encryption.encrypt blockEnc envKey iv text
      = .error Encryption.EncError.emptyInput := by
  unfold Encryption.encrypt
  rw [if_pos ?cond]
  case cond =>
    rcases h with h | h
    · exact Or.inl h
    · refine Or.inr ?_
      rw [JsString.jsTrim_eq_nil_of_all_ws text h]
      rfl

/-- Witness for C8 at the test suite's example `"   "` (spaces only). -/
theorem claim_C8_whitespace_reject_witness :
    Encryption.encrypt Fixtures.toyBlock (some Fixtures.key32) Fixtures.iv0
      "   ".toList = .error Encryption.EncError.emptyInput :=
  claim_C8_whitespace_reject Fixtures.toyBlock (some Fixtures.key32) Fixtures.iv0
    "   ".toList (Or.inr (by decide))

namespace Jwt

theorem verifyToken_ok (sigOf : Payload → List Char → Nat) (secret : List Char)
    (now : Nat) (t : SignedToken)
    (hsig : t.sig = sigOf t.payload secret)
    (hnbf : t.payload.nbf = none)
    (hexp : now < t.payload.exp)
    (haud : t.payload.aud = audienceStr)
    (hiss : t.payload.iss = issuerStr) :
    verifyToken sigOf secret now (.parsed t) = .ok t.payload := by
  unfold verifyToken
  dsimp only
  rw [if_neg (not_ne_iff.mpr hsig), hnbf]
  dsimp only
  rw [if_neg Bool.false_ne_true]
  rw [if_neg (by omega : ¬ now ≥ t.payload.exp)]
  rw [if_neg (not_ne_iff.mpr haud), if_neg (not_ne_iff.mpr hiss)]

theorem verifyToken_expired (sigOf : Payload → List Char → Nat) (secret : List Char)
    (now : Nat) (t : SignedToken)
    (hsig : t.sig = sigOf t.payload secret)
    (hnbf : ∀ m, t.payload.nbf = some m → m ≤ now)
    (hexp : t.payload.exp ≤ now) :
    verifyToken sigOf secret now (.parsed t) = .error .expired := by
  unfold verifyToken
  dsimp only
  rw [if_neg (not_ne_iff.mpr hsig)]
  cases hn : t.payload.nbf with
  | none =>
    dsimp only
    rw [if_neg Bool.false_ne_true, if_pos (by omega : now ≥ t.payload.exp)]
  | some m =>
    have hm := hnbf m hn
    dsimp only
    rw [if_neg (by simp only [decide_eq_true_eq]; omega),
      if_pos (by omega : now ≥ t.payload.exp)]

theorem verifyToken_bad_sig (sigOf : Payload → List Char → Nat) (secret : List Char)
    (now : Nat) (t : SignedToken)
    (hsig : t.sig ≠ sigOf t.payload secret) :
    verifyToken sigOf secret now (.parsed t) = .error .invalidToken := by
  unfold verifyToken
  dsimp only
  rw [if_pos hsig]

theorem verifyToken_bad_iss_aud (sigOf : Payload → List Char → Nat) (secret : List Char)
    (now : Nat) (t : SignedToken)
    (hsig : t.sig = sigOf t.payload secret)
    (hnbf : ∀ m, t.payload.nbf = some m → m ≤ now)
    (hexp : now < t.payload.exp)
    (hbad : t.payload.aud ≠ audienceStr ∨ t.payload.iss ≠ issuerStr) :
    verifyToken sigOf secret now (.parsed t) = .error .invalidToken := by
  unfold verifyToken
  dsimp only
  rw [if_neg (not_ne_iff.mpr hsig)]
  cases hn : t.payload.nbf with
  | none =>
    dsimp only
    rw [if_neg Bool.false_ne_true, if_neg (by omega : ¬ now ≥ t.payload.exp)]
    rcases hbad with hbad | hbad
    · rw [if_pos hbad]
    · by_cases haud : t.payload.aud = audienceStr
      · rw [if_neg (not_ne_iff.mpr haud), if_pos hbad]
      · rw [if_pos haud]
  | some m =>
    have hm := hnbf m hn
    dsimp only
    rw [if_neg (by simp only [decide_eq_true_eq]; omega),
      if_neg (by omega : ¬ now ≥ t.payload.exp)]
    rcases hbad with hbad | hbad
    · rw [if_pos hbad]
    · by_cases haud : t.payload.aud = audienceStr
      · rw [if_neg (not_ne_iff.mpr haud), if_pos hbad]
      · rw [if_pos haud]

theorem verifyToken_nbf_future (sigOf : Payload → List Char → Nat) (secret : List Char)
    (now : Nat) (t : SignedToken)
    (hsig : t.sig = sigOf t.payload secret)
    (n : Nat) (hnbf : t.payload.nbf = some n) (hfut : now < n) :
    verifyToken sigOf secret now (.parsed t) = .error .notActive := by
  unfold verifyToken
  dsimp only
  rw [if_neg (not_ne_iff.mpr hsig), hnbf]
  dsimp only
  rw [if_pos (by simp only [decide_eq_true_eq]; omega)]

theorem generateToken_ok (sigOf : Payload → List Char → Nat) (secret : List Char)
    (expSec now : Nat) (userId email : List Char)
    (hid : userId ≠ []) (hem : email ≠ []) :
    generateToken sigOf secret expSec now userId email =
      .ok { payload :=
              { userId := userId
                email := JsString.jsTrim (JsString.jsToLower email)
                iat := now
                exp := now + expSec
                nbf := none
                iss := issuerStr
                aud := audienceStr }
            sig := sigOf
              { userId := userId
                email := JsString.jsTrim (JsString.jsToLower email)
                iat := now
                exp := now + expSec
                nbf := none
                iss := issuerStr
                aud := audienceStr } secret } := by
  unfold generateToken
  rw [if_neg (not_or.mpr ⟨hid, hem⟩)]

end Jwt

/-- **C2.** For every non-empty subject id and email (and positive
configured token lifetime), verifying a freshly issued token with the
same secret at issuance time succeeds and returns claims whose
`userId` is the id and whose `email` is the lowercased, trimmed
email. -/
theorem claim_C2_verify_issue (sigOf : Jwt.Payload → List Char → Nat)
    (secret : List Char) (expSec now : Nat) (userId email : List Char)
    (hid : userId ≠ []) (hem : email ≠ []) (hexp : 0 < expSec) :
    ∃ tok, Jwt.generateToken sigOf secret expSec now userId email = .ok tok ∧
      Jwt.verifyToken sigOf secret now (.parsed tok) = .ok tok.payload ∧
      tok.payload.userId = userId ∧
      tok.payload.email = JsString.jsTrim (JsString.jsToLower email) := by
  refine ⟨_, Jwt.generateToken_ok sigOf secret expSec now userId email hid hem,
    ?_, rfl, rfl⟩
  exact Jwt.verifyToken_ok sigOf secret now _ rfl rfl (by dsimp only; omega) rfl rfl

/-- Witness for C2 at the spec's end-to-end example: id
`507f1f77bcf86cd799439011`, email `Test@Example.com`, 7-day expiry. -/
theorem claim_C2_verify_issue_witness :
    ∃ tok, Jwt.generateToken Fixtures.toySig Fixtures.secretA 604800 1000
      Fixtures.userIdA Fixtures.emailA = .ok tok ∧
      Jwt.verifyToken Fixtures.toySig Fixtures.secretA 1000 (.parsed tok)
        = .ok tok.payload ∧
      tok.payload.userId = Fixtures.userIdA ∧
      tok.payload.email = JsString.jsTrim (JsString.jsToLower Fixtures.emailA) :=
  claim_C2_verify_issue Fixtures.toySig Fixtures.secretA 604800 1000
    Fixtures.userIdA Fixtures.emailA (by decide) (by decide) (by decide)

/-- **C4.** Verification fails closed with two distinct kinds: a
validly-signed token past its expiry fails with the expired kind
(whatever its audience or issuer); a bad signature, a wrong audience
or issuer on a live token, a structurally malformed token, and a token
issued under a different secret (whose signature therefore differs)
all fail with the invalid kind; the two kinds are distinct. -/
theorem claim_C4_two_error_kinds (sigOf : Jwt.Payload → List Char → Nat)
    (secret : List Char) (now : Nat) :
    (∀ t : Jwt.SignedToken, t.sig = sigOf t.payload secret →
      (∀ m, t.payload.nbf = some m → m ≤ now) → t.payload.exp ≤ now →
      Jwt.verifyToken sigOf secret now (.parsed t) = .error Jwt.JwtError.expired) ∧
    (∀ t : Jwt.SignedToken, t.sig ≠ sigOf t.payload secret →
      Jwt.verifyToken sigOf secret now (.parsed t)
        = .error Jwt.JwtError.invalidToken) ∧
    (∀ t : Jwt.SignedToken, t.sig = sigOf t.payload secret →
      (∀ m, t.payload.nbf = some m → m ≤ now) → now < t.payload.exp →
      (t.payload.aud ≠ Jwt.audienceStr ∨ t.payload.iss ≠ Jwt.issuerStr) →
      Jwt.verifyToken sigOf secret now (.parsed t)
        = .error Jwt.JwtError.invalidToken) ∧
    (Jwt.verifyToken sigOf secret now .malformed
      = .error Jwt.JwtError.invalidToken) ∧
    (∀ secret2 userId email expSec t0 tok,
      Jwt.generateToken sigOf secret2 expSec t0 userId email = .ok tok →
      tok.sig ≠ sigOf tok.payload secret →
      Jwt.verifyToken sigOf secret now (.parsed tok)
        = .error Jwt.JwtError.invalidToken) ∧
    Jwt.JwtError.expired ≠ Jwt.JwtError.invalidToken := by
  refine ⟨?_, ?_, ?_, rfl, ?_, by decide⟩
  · exact fun t hs hn he => Jwt.verifyToken_expired sigOf secret now t hs hn he
  · exact fun t hs => Jwt.verifyToken_bad_sig sigOf secret now t hs
  · exact fun t hs hn he hb => Jwt.verifyToken_bad_iss_aud sigOf secret now t hs hn he hb
  · exact fun _ _ _ _ _ tok _ hs => Jwt.verifyToken_bad_sig sigOf secret now tok hs

/-- Witness for C4 at concrete tokens evaluated at time 100: an
expired one, one signed under a different secret (directly and via
`generateToken`), one with a wrong issuer, and a malformed input. -/
theorem claim_C4_two_error_kinds_witness :
    Jwt.verifyToken Fixtures.toySig Fixtures.secretA 100
      (.parsed ⟨Fixtures.payloadExpired, Fixtures.toySig Fixtures.payloadExpired
        Fixtures.secretA⟩) = .error Jwt.JwtError.expired ∧
    Jwt.verifyToken Fixtures.toySig Fixtures.secretA 100
      (.parsed ⟨Fixtures.payloadFresh, Fixtures.toySig Fixtures.payloadFresh
        Fixtures.secretB⟩) = .error Jwt.JwtError.invalidToken ∧
    Jwt.verifyToken Fixtures.toySig Fixtures.secretA 100
      (.parsed ⟨Fixtures.payloadBadIss, Fixtures.toySig Fixtures.payloadBadIss
        Fixtures.secretA⟩) = .error Jwt.JwtError.invalidToken ∧
    Jwt.verifyToken Fixtures.toySig Fixtures.secretA 100 .malformed
      = .error Jwt.JwtError.invalidToken ∧
    (∀ tok, Jwt.generateToken Fixtures.toySig Fixtures.secretB 604800 0
      Fixtures.userIdA Fixtures.emailA = .ok tok →
      Jwt.verifyToken Fixtures.toySig Fixtures.secretA 100 (.parsed tok)
        = .error Jwt.JwtError.invalidToken) := by
  refine ⟨(claim_C4_two_error_kinds Fixtures.toySig Fixtures.secretA 100).1 _ rfl
      (fun m hm => by simp [Fixtures.payloadExpired] at hm) (by decide),
    (claim_C4_two_error_kinds Fixtures.toySig Fixtures.secretA 100).2.1 _ (by decide),
    (claim_C4_two_error_kinds Fixtures.toySig Fixtures.secretA 100).2.2.1 _ rfl
      (fun m hm => by simp [Fixtures.payloadBadIss, Fixtures.payloadFresh,
        Fixtures.payloadExpired] at hm) (by decide) (Or.inr (by decide)),
    (claim_C4_two_error_kinds Fixtures.toySig Fixtures.secretA 100).2.2.2.1, ?_⟩
  intro tok hgen
  exact (claim_C4_two_error_kinds Fixtures.toySig Fixtures.secretA 100).2.2.2.2.1
    Fixtures.secretB Fixtures.userIdA Fixtures.emailA 604800 0 tok hgen
    (by rw [Jwt.generateToken_ok Fixtures.toySig Fixtures.secretB 604800 0
        Fixtures.userIdA Fixtures.emailA (by decide) (by decide)] at hgen
        injection hgen with h
        rw [← h]
        decide)

/-- **C9 (counterexample).** The claim says `decodeToken` never
throws for every input, including empty strings and corrupt tokens.
It throws twice over: on the empty string it raises its own "Token is
required"; and on a non-empty token whose `typ: JWT` header is
followed by a non-JSON payload part, `jwt.decode` itself throws
(`jws.decode`'s unguarded `JSON.parse`) and the wrapper rethrows the
exception as "Token decoding failed: ...". -/
theorem claim_C9_counterexample :
    Jwt.decodeToken Fixtures.toyDecode [] = .error Jwt.JwtError.otherFailure ∧
    Jwt.decodeToken Fixtures.throwingDecode Fixtures.badPayloadToken
      = .error Jwt.JwtError.otherFailure :=
  ⟨rfl, rfl⟩

/-- **C9 (amended).** `decodeToken` throws "Token is required" on the
empty string; for non-empty input it returns the library's structural
decode result — claims or null — whenever `jwt.decode` itself returns,
and rethrows a wrapped "Token decoding failed" error when the library
call throws (as it does on a `typ: JWT` token whose payload part is
not valid JSON). -/
theorem claim_C9_decode_behavior (jwtDecode : List Char → Except Unit (Option Jwt.Payload))
    (token : List Char) :
    (token = [] →
      Jwt.decodeToken jwtDecode token = .error Jwt.JwtError.otherFailure) ∧
    (∀ p, token ≠ [] → jwtDecode token = .ok p →
      Jwt.decodeToken jwtDecode token = .ok p) ∧
    (∀ e, token ≠ [] → jwtDecode token = .error e →
      Jwt.decodeToken jwtDecode token = .error Jwt.JwtError.otherFailure) := by
  refine ⟨?_, ?_, ?_⟩
  · rintro rfl
    rfl
  · intro p hne hdec
    unfold Jwt.decodeToken
    rw [if_neg hne, hdec]
  · intro e hne hdec
    unfold Jwt.decodeToken
    rw [if_neg hne, hdec]

/-- Witness for C9: a non-empty unparseable input on which the decoder
stand-in yields null is returned as null, and the throwing-decoder
path on the concrete bad-payload token is rethrown as the wrapped
failure. -/
theorem claim_C9_decode_behavior_witness :
    Jwt.decodeToken Fixtures.toyDecode "not-a-jwt".toList = .ok none ∧
    Jwt.decodeToken Fixtures.throwingDecode Fixtures.badPayloadToken
      = .error Jwt.JwtError.otherFailure :=
  ⟨(claim_C9_decode_behavior Fixtures.toyDecode "not-a-jwt".toList).2.1 none
      (by decide) rfl,
   (claim_C9_decode_behavior Fixtures.throwingDecode Fixtures.badPayloadToken).2.2 ()
      (by decide) rfl⟩

/-- **C10.** A validly-signed token carrying a not-before claim in the
future fails with the distinct "Token not active yet." error — checked
before expiry, audience and issuer — and this third kind is neither
the expired kind nor the invalid kind. -/
theorem claim_C10_nbf_third_kind (sigOf : Jwt.Payload → List Char → Nat)
    (secret : List Char) (now : Nat) (t : Jwt.SignedToken)
    (hsig : t.sig = sigOf t.payload secret) (n : Nat)
    (hnbf : t.payload.nbf = some n) (hfut : now < n) :
    Jwt.verifyToken sigOf secret now (.parsed t) = .error Jwt.JwtError.notActive ∧
    Jwt.JwtError.notActive ≠ Jwt.JwtError.expired ∧
    Jwt.JwtError.notActive ≠ Jwt.JwtError.invalidToken :=
  ⟨Jwt.verifyToken_nbf_future sigOf secret now t hsig n hnbf hfut, by decide, by decide⟩

/-- Witness for C10 at a concrete token whose `nbf` is 500, verified
at time 100. -/
theorem claim_C10_nbf_third_kind_witness :
    Jwt.verifyToken Fixtures.toySig Fixtures.secretA 100
      (.parsed ⟨Fixtures.payloadNbf, Fixtures.toySig Fixtures.payloadNbf
        Fixtures.secretA⟩) = .error Jwt.JwtError.notActive ∧
    Jwt.JwtError.notActive ≠ Jwt.JwtError.expired ∧
    Jwt.JwtError.notActive ≠ Jwt.JwtError.invalidToken :=
  claim_C10_nbf_third_kind Fixtures.toySig Fixtures.secretA 100 _ rfl 500 rfl
    (by decide)

/-- **C6 (counterexample).** The claim quantifies over every password,
but at the empty password `hashPassword` fails, so no digest exists
for `verify(p, hash(p))` to hold at `p = ""`. -/
theorem claim_C6_counterexample :
    Bcrypt.hashPassword Fixtures.toyMac 10 0 [] = .error Bcrypt.HashError.emptyInput :=
  rfl

/-- **C6 (amended).** For every non-empty password, the password
reproduces its own digest under the embedded salt and work factor; and
a different non-empty password whose bcrypt derivation under that salt
and cost differs (bcrypt collision-freeness, probabilistic in the
original claim) fails to verify. -/
theorem claim_C6_password_verify (mac : Nat → Nat → List Char → Nat)
    (saltRounds salt : Nat) (p p2 : List Char)
    (hp : p ≠ []) (hp2 : p2 ≠ []) (_hne : p2 ≠ p)
    (hcol : mac saltRounds salt p2 ≠ mac saltRounds salt p) :
    ∃ d, Bcrypt.hashPassword mac saltRounds salt p = .ok d ∧
      Bcrypt.comparePassword mac p d = .ok true ∧
      Bcrypt.comparePassword mac p2 d = .ok false := by
  refine ⟨⟨saltRounds, salt, mac saltRounds salt p⟩, ?_, ?_, ?_⟩
  · unfold Bcrypt.hashPassword
    rw [if_neg hp]
  · unfold Bcrypt.comparePassword
    rw [if_neg hp]
    simp
  · unfold Bcrypt.comparePassword
    rw [if_neg hp2]
    dsimp only
    rw [decide_eq_false hcol]

/-- Witness for C6 at two concrete distinct passwords of different
lengths (the concrete derivation function separates them). -/
theorem claim_C6_password_verify_witness :
    ∃ d, Bcrypt.hashPassword Fixtures.toyMac 10 7 "password123".toList = .ok d ∧
      Bcrypt.comparePassword Fixtures.toyMac "password123".toList d = .ok true ∧
      Bcrypt.comparePassword Fixtures.toyMac "hunter2".toList d = .ok false :=
  claim_C6_password_verify Fixtures.toyMac 10 7 "password123".toList
    "hunter2".toList (by decide) (by decide) (by decide) (by decide)
